import Mathlib

/-!
Verification of the `fixchain` asynchronous chain fixer (`go/fixchain/fixer.go`).

Certificates, root pools and error context are opaque to the orchestrator, so
they are embedded as `Nat` identities.  The stateful worker loop `fixServer`
is embedded as an event trace; the counters and channel bookkeeping are
embedded as explicit state.
-/

namespace Fixchain

/-- Opaque parsed X.509 certificate, identified by its content. -/
abbrev Cert := Nat

/-- Immutable shared pool of trusted roots, identified by its identity. -/
abbrev RootPool := Nat

/-- An ordered certificate chain, leaf first. -/
abbrev Chain := List Cert

/-- Modelled from the spec: the `FixError` kind taxonomy of `errors.go`
(not under `src/`): kind is `VerifyFailed` or `FixFailed`. -/
inductive ErrorType where
  | VerifyFailed
  | FixFailed
deriving DecidableEq, Repr

/-- Modelled from the spec: a `FixError` of `errors.go` (not under `src/`):
a kind together with an opaque contextual cause. -/
structure FixError where
  type : ErrorType
  info : Nat
deriving DecidableEq, Repr

/-- The best-effort counters of the `Fixer` struct (`fixer.go`). -/
structure Counters where
  reconstructed : Nat
  notReconstructed : Nat
  fixed : Nat
  notFixed : Nat
  skipped : Nat
  alreadyDone : Nat
deriving DecidableEq, Repr

/-- The zero value every counter starts from. -/
def initCounters : Counters :=
  { reconstructed := 0, notReconstructed := 0, fixed := 0, notFixed := 0,
    skipped := 0, alreadyDone := 0 }

/-- The flag-gathering loop at the top of `Fixer.updateCounters`: one pass over
the job's errors, setting `verifyFailed` on a `VerifyFailed` entry and
`fixFailed` on a `FixFailed` entry. -/
def scanErrorFlags (ferrs : List FixError) : Bool × Bool :=
  ferrs.foldl
    (fun acc ferr =>
      match ferr.type with
      | ErrorType.VerifyFailed => (true, acc.2)
      | ErrorType.FixFailed => (acc.1, true))
    (false, false)

/-- `Fixer.updateCounters` (`fixer.go` lines 52-79): inspects the job's
errors, then increments `notReconstructed` and `notFixed` when both flags are
set, `notReconstructed` and `fixed` when only `verifyFailed` is set, and
`reconstructed` otherwise. -/
def updateCounters (c : Counters) (ferrs : List FixError) : Counters :=
  let flags := scanErrorFlags ferrs
  if flags.1 then
    if flags.2 then
      { c with notReconstructed := c.notReconstructed + 1, notFixed := c.notFixed + 1 }
    else
      { c with notReconstructed := c.notReconstructed + 1, fixed := c.fixed + 1 }
  else
    { c with reconstructed := c.reconstructed + 1 }

/-- Modelled from the spec: `newDedupedChain` (not under `src/`), called by
`Fixer.QueueChain` before any other processing: consecutive duplicate
certificates collapse to one. -/
def newDedupedChain : List Cert → List Cert
  | [] => []
  | [a] => [a]
  | a :: b :: rest =>
    if a = b then newDedupedChain (b :: rest) else a :: newDedupedChain (b :: rest)

/-- `true` when no two adjacent entries of the chain are identical. -/
def noAdjDup : List Cert → Bool
  | [] => true
  | [_] => true
  | a :: b :: rest => decide (a ≠ b) && noAdjDup (b :: rest)

/-- The `toFix` job record built by `Fixer.QueueChain`: leaf certificate,
deduplicated chain, root pool.  (The `cache` pointer is shared orchestrator
state, not per-job data, and is omitted.) -/
structure Job where
  cert : Cert
  chain : List Cert
  roots : RootPool
deriving DecidableEq, Repr

/-- The job value `Fixer.QueueChain` sends on `toFix`: the chain is passed
through `newDedupedChain` before anything else happens to it. -/
def mkToFix (cert : Cert) (chain : List Cert) (roots : RootPool) : Job :=
  { cert := cert, chain := newDedupedChain chain, roots := roots }

/-- The pure outcome of `fix.handleChain` for one job: the fixed chains and
the classified errors.  `handleChain` itself lives in `fix.go`, outside
`src/`, so it is kept abstract and passed as a parameter. -/
abbrev Handler := Job → List Chain × List FixError

/-- The observable construction-time state of a `Fixer` (`fixer.go` lines
16-33 and `NewFixer`): whether the unbuffered `toFix` channel is still open,
its buffer capacity, how many `fixServer` workers were started, and whether
the one-second stats goroutine is running. -/
structure Fixer where
  toFixOpen : Bool
  toFixCap : Nat
  workers : Nat
  statsRunning : Bool
  statsIntervalSec : Nat
  counters : Counters
deriving DecidableEq, Repr

/-- `Fixer.newFixServerPool` (`fixer.go` lines 98-103): the loop
`for i := 0; i < workerCount; i++` starts one `fixServer` goroutine per
iteration, so it starts `workerCount` workers when `workerCount > 0` and
none otherwise.  Returns the number of workers started. -/
def newFixServerPool (workerCount : Int) : Nat :=
  workerCount.toNat

/-- `NewFixer` (`fixer.go` lines 122-136): allocates the unbuffered channel
`make(chan *toFix)` (capacity 0), starts the worker pool, and starts the
one-second `logStats` ticker goroutine exactly when `logStats` is true.
There is no validation of `workerCount` and no failure path: a `Fixer`
value is always returned. -/
def NewFixer (workerCount : Int) (logStats : Bool) : Fixer :=
  { toFixOpen := true
    toFixCap := 0
    workers := newFixServerPool workerCount
    statsRunning := logStats
    statsIntervalSec := 1
    counters := initCounters }

/-- `Fixer.Wait` (`fixer.go` lines 47-50): closes `toFix` and blocks on the
worker `WaitGroup`.  Nothing else in it touches the fixer: in particular the
`logStats` ticker goroutine is left running. -/
def Wait (f : Fixer) : Fixer :=
  { f with toFixOpen := false }

/-- The spec's construction precondition stated in its own words:
`workerCount` must be ≥ 1. -/
def workerCountOk (workerCount : Int) : Bool :=
  1 ≤ workerCount

/-- A Go panic raised by an orchestrator operation. -/
inductive GoPanic where
  | sendOnClosedChannel
deriving DecidableEq, Repr

/-- `Fixer.QueueChain` (`fixer.go` lines 37-44): sends the deduplicated job
on `toFix`.  Go channel semantics: a send on a closed channel panics; the
panic is modelled as the `Except` error case. -/
def QueueChainE (f : Fixer) (cert : Cert) (chain : List Cert) (roots : RootPool) :
    Except GoPanic Job :=
  if f.toFixOpen then Except.ok (mkToFix cert chain roots)
  else Except.error GoPanic.sendOnClosedChannel

/-- Whether a send on a Go channel with capacity `cap`, `buf` buffered
values and `recv` waiting receivers can complete now rather than suspend
the sender. -/
def sendCompletesNow (cap buf recv : Nat) : Bool :=
  decide (buf < cap) || decide (0 < recv)

/-- One observable event of the worker loop `Fixer.fixServer`
(`fixer.go` lines 81-96) or of `Fixer.Wait`. -/
inductive Event where
  | closeQueue
  | waitReturn
  | dequeue (j : Job)
  | incActive
  | decActive
  | counterUpdate (ferrs : List FixError)
  | pubError (e : FixError)
  | pubChain (c : Chain)
deriving DecidableEq, Repr

/-- The event sequence of one iteration of the `fixServer` loop body, in
source order: dequeue the job, `atomic.AddUint32(&f.active, 1)`, the pure
`handleChain`, `updateCounters`, send each error on `f.errors`, send each
chain on `f.chains`, `atomic.AddUint32(&f.active, ^uint32(0))`. -/
def jobTrace (handle : Handler) (j : Job) : List Event :=
  Event.dequeue j :: Event.incActive :: Event.counterUpdate (handle j).2 ::
    ((handle j).2.map Event.pubError ++ ((handle j).1.map Event.pubChain ++ [Event.decActive]))

/-- The event sequence of `fixServer` consuming the queued jobs in order
until the channel is exhausted. -/
def fixServerTrace (handle : Handler) : List Job → List Event
  | [] => []
  | j :: rest => jobTrace handle j ++ fixServerTrace handle rest

/-- The event sequence of `Fixer.Wait` on a fixer whose queue holds `jobs`:
`close(f.toFix)` first, then the workers drain the queue, and
`f.wg.Wait()` returns only after the last worker loop exits. -/
def waitTrace (handle : Handler) (jobs : List Job) : List Event :=
  Event.closeQueue :: (fixServerTrace handle jobs ++ [Event.waitReturn])

/-- `a` occurs at some position strictly before an occurrence of `b`. -/
def precedes (tr : List Event) (a b : Event) : Prop :=
  ∃ i k : Nat, i < k ∧ tr[i]? = some a ∧ tr[k]? = some b

/-- The modulus of Go's `uint32`, that is 2 ^ 32. -/
def uint32Mod : Nat := 4294967296

/-- Go's `uint32` addition: wraparound modulo 2 ^ 32.  The decrement in
`fixServer` is written `AddUint32(&f.active, ^uint32(0))`, an addition of
2 ^ 32 - 1. -/
def addUint32 (x d : Nat) : Nat := (x + d) % uint32Mod

/-- Effect of one trace event on the `active` counter. -/
def activeStep (a : Nat) : Event → Nat
  | Event.incActive => addUint32 a 1
  | Event.decActive => addUint32 a (uint32Mod - 1)
  | _ => a

/-- The value of the `active` counter after running a trace from value `a`. -/
def runActive (a : Nat) : List Event → Nat
  | [] => a
  | ev :: tr => runActive (activeStep a ev) tr

/-- The dedup-registry key: leaf certificate identity, deduplicated chain,
root pool identity. -/
abbrev Fingerprint := Cert × List Cert × RootPool

/-- Modelled from the spec: the fingerprint of a job, derived from
(leaf certificate identity, deduplicated chain, root pool identity). -/
def fingerprint (j : Job) : Fingerprint :=
  (j.cert, j.chain, j.roots)

/-- The dedup-registry state: the set of processed fingerprints (the
`lockedMap` field `done` of the `Fixer`) and the `skipped` counter. -/
structure FixState where
  done : List Fingerprint
  skipped : Nat
deriving DecidableEq, Repr

/-- Modelled from the spec: the atomic test-and-insert of the thread-safe
processed set (`lockedMap`, not under `src/`): tests membership and inserts
under a single critical section, reporting whether the key was already
present. -/
def checkAndMark (done : List Fingerprint) (fp : Fingerprint) : Bool × List Fingerprint :=
  if fp ∈ done then (true, done) else (false, fp :: done)

/-- Modelled from the spec: the skip step of `fix.handleChain` (`fix.go`,
not under `src/`): compute the job's fingerprint; if `checkAndMark` reports
it already seen, increment `skipped` and return with empty outputs;
otherwise mark it processed and run the construct/fix core. -/
def handleChainModel (core : Handler) (st : FixState) (j : Job) :
    FixState × (List Chain × List FixError) :=
  let cm := checkAndMark st.done (fingerprint j)
  if cm.1 then ({ st with skipped := st.skipped + 1 }, ([], []))
  else ({ st with done := cm.2 }, core j)

/-- A sample counter state used as a concrete witness input. -/
def sampleCounters : Counters :=
  { reconstructed := 3, notReconstructed := 4, fixed := 5, notFixed := 6,
    skipped := 7, alreadyDone := 8 }

/-- A `VerifyFailed` sample error. -/
def vfErr : FixError := { type := ErrorType.VerifyFailed, info := 11 }

/-- A `FixFailed` sample error. -/
def ffErr : FixError := { type := ErrorType.FixFailed, info := 12 }

/-- A sample job used as a concrete witness input. -/
def sampleJob : Job := { cert := 1, chain := [2, 3], roots := 0 }

/-- A sample handler producing one chain and one error per job. -/
def sampleHandle : Handler := fun j => ([j.chain], [vfErr])

/-- A sample handler producing one error and no chain. -/
def errOnlyHandle : Handler := fun _ => ([], [vfErr])

/-- A sample empty dedup-registry state. -/
def sampleState : FixState := { done := [], skipped := 0 }

lemma scanErrorFlags_go (ferrs : List FixError) (a b : Bool) :
    ferrs.foldl
      (fun acc ferr =>
        match ferr.type with
        | ErrorType.VerifyFailed => (true, acc.2)
        | ErrorType.FixFailed => (acc.1, true))
      (a, b)
    = (a || ferrs.any (fun e => e.type = ErrorType.VerifyFailed),
       b || ferrs.any (fun e => e.type = ErrorType.FixFailed)) := by
  induction ferrs generalizing a b with
  | nil => simp
  | cons ferr rest ih =>
    cases h : ferr.type <;>
      simp [List.any_cons, h, ih, Bool.or_assoc]

lemma scanErrorFlags_eq (ferrs : List FixError) :
    scanErrorFlags ferrs
    = (ferrs.any (fun e => e.type = ErrorType.VerifyFailed),
       ferrs.any (fun e => e.type = ErrorType.FixFailed)) := by
  simpa using scanErrorFlags_go ferrs false false

lemma any_verify_iff (ferrs : List FixError) :
    ferrs.any (fun e => e.type = ErrorType.VerifyFailed) = true
      ↔ ∃ e ∈ ferrs, e.type = ErrorType.VerifyFailed := by
  simp [List.any_eq_true]

lemma any_fix_iff (ferrs : List FixError) :
    ferrs.any (fun e => e.type = ErrorType.FixFailed) = true
      ↔ ∃ e ∈ ferrs, e.type = ErrorType.FixFailed := by
  simp [List.any_eq_true]

/-- C1: for every completed job, `updateCounters` increments exactly as
follows, leaving every other counter unchanged: no `VerifyFailed` present ⇒
`reconstructed` alone; `VerifyFailed` present without `FixFailed` ⇒ `fixed`
and `notReconstructed`; both present ⇒ `notFixed` and `notReconstructed`. -/
theorem updateCounters_cases (c : Counters) (ferrs : List FixError) :
    ((¬ ∃ e ∈ ferrs, e.type = ErrorType.VerifyFailed) →
      updateCounters c ferrs = { c with reconstructed := c.reconstructed + 1 })
    ∧ ((∃ e ∈ ferrs, e.type = ErrorType.VerifyFailed) →
        (¬ ∃ e ∈ ferrs, e.type = ErrorType.FixFailed) →
      updateCounters c ferrs
        = { c with notReconstructed := c.notReconstructed + 1, fixed := c.fixed + 1 })
    ∧ ((∃ e ∈ ferrs, e.type = ErrorType.VerifyFailed) →
        (∃ e ∈ ferrs, e.type = ErrorType.FixFailed) →
      updateCounters c ferrs
        = { c with notReconstructed := c.notReconstructed + 1, notFixed := c.notFixed + 1 }) := by
  refine ⟨fun hnv => ?_, fun hv hnf => ?_, fun hv hf => ?_⟩
  · have h1 : ferrs.any (fun e => e.type = ErrorType.VerifyFailed) = false := by
      rw [← Bool.not_eq_true, any_verify_iff]; exact hnv
    simp [updateCounters, scanErrorFlags_eq, h1]
  · have h1 : ferrs.any (fun e => e.type = ErrorType.VerifyFailed) = true :=
      (any_verify_iff ferrs).2 hv
    have h2 : ferrs.any (fun e => e.type = ErrorType.FixFailed) = false := by
      rw [← Bool.not_eq_true, any_fix_iff]; exact hnf
    simp [updateCounters, scanErrorFlags_eq, h1, h2]
  · have h1 : ferrs.any (fun e => e.type = ErrorType.VerifyFailed) = true :=
      (any_verify_iff ferrs).2 hv
    have h2 : ferrs.any (fun e => e.type = ErrorType.FixFailed) = true :=
      (any_fix_iff ferrs).2 hf
    simp [updateCounters, scanErrorFlags_eq, h1, h2]

/-- C1 witness: on a job with a `VerifyFailed` error and no `FixFailed`
error, `fixed` and `notReconstructed` are each incremented by one. -/
theorem updateCounters_cases_witness :
    (∃ e ∈ [vfErr], e.type = ErrorType.VerifyFailed)
    ∧ updateCounters sampleCounters [vfErr]
        = { sampleCounters with
              notReconstructed := sampleCounters.notReconstructed + 1,
              fixed := sampleCounters.fixed + 1 } :=
  ⟨by decide,
    (updateCounters_cases sampleCounters [vfErr]).2.1 (by decide) (by decide)⟩

lemma newDedupedChain_head : (b : Cert) → (rest : List Cert) →
    (newDedupedChain (b :: rest)).head? = some b
  | _, [] => by simp [newDedupedChain]
  | b, c :: rest2 => by
    by_cases hbc : b = c
    · simp only [newDedupedChain, if_pos hbc]
      rw [hbc]
      exact newDedupedChain_head c rest2
    · simp [newDedupedChain, hbc]

lemma newDedupedChain_noAdjDup : (chain : List Cert) →
    noAdjDup (newDedupedChain chain) = true
  | [] => by simp [newDedupedChain, noAdjDup]
  | [_] => by simp [newDedupedChain, noAdjDup]
  | a :: b :: rest => by
    have ih := newDedupedChain_noAdjDup (b :: rest)
    have hh := newDedupedChain_head b rest
    by_cases hab : a = b
    · simp only [newDedupedChain, if_pos hab]
      exact ih
    · simp only [newDedupedChain, if_neg hab]
      cases hL : newDedupedChain (b :: rest) with
      | nil => rw [hL] at hh; simp at hh
      | cons c tl =>
        rw [hL] at hh ih
        have hc : c = b := by simpa using hh
        subst hc
        simp [noAdjDup, ih, hab]

lemma newDedupedChain_of_noAdjDup : (chain : List Cert) →
    noAdjDup chain = true → newDedupedChain chain = chain
  | [], _ => by simp [newDedupedChain]
  | [_], _ => by simp [newDedupedChain]
  | a :: b :: rest, h => by
    rw [noAdjDup, Bool.and_eq_true] at h
    obtain ⟨h1, htl⟩ := h
    have hab : a ≠ b := by simpa using h1
    simp only [newDedupedChain, if_neg hab]
    rw [newDedupedChain_of_noAdjDup (b :: rest) htl]

lemma newDedupedChain_idem (chain : List Cert) :
    newDedupedChain (newDedupedChain chain) = newDedupedChain chain :=
  newDedupedChain_of_noAdjDup _ (newDedupedChain_noAdjDup chain)

/-- C6: every enqueued job's chain has no two adjacent identical entries,
and a chain with consecutive duplicates yields the same `toFix` job — hence
identical results — as the same chain with those duplicates removed first. -/
theorem queueChain_dedup (cert : Cert) (chain : List Cert) (roots : RootPool) :
    noAdjDup (mkToFix cert chain roots).chain = true
    ∧ mkToFix cert (newDedupedChain chain) roots = mkToFix cert chain roots := by
  constructor
  · exact newDedupedChain_noAdjDup chain
  · simp [mkToFix, newDedupedChain_idem]

/-- C2 counterexample: the spec's precondition rejects `workerCount = 0`,
yet `NewFixer 0` does not fail: it returns a normally constructed fixer
whose pool started zero workers. -/
theorem newFixer_zero_counterexample :
    workerCountOk 0 = false
    ∧ (NewFixer 0 false).toFixOpen = true
    ∧ (NewFixer 0 false).workers = 0 :=
  ⟨rfl, rfl, rfl⟩

/-- C2 amended: `NewFixer` performs no `workerCount` validation and has no
failure path; called with `workerCount = 0` it returns an orchestrator whose
pool started zero workers, which degrades at runtime (nothing ever consumes
the queue) rather than failing at construction. -/
theorem newFixer_zero_workers (logStats : Bool) :
    (NewFixer 0 logStats).workers = 0
    ∧ (NewFixer 0 logStats).toFixOpen = true :=
  ⟨rfl, rfl⟩

/-- C7: the `toFix` channel is created unbuffered (capacity 0), so a send
can complete only when a receiver is already waiting — backpressure is
immediate. -/
theorem queueChain_unbuffered (workerCount : Int) (logStats : Bool) (recv : Nat) :
    (NewFixer workerCount logStats).toFixCap = 0
    ∧ sendCompletesNow (NewFixer workerCount logStats).toFixCap 0 recv = decide (0 < recv) := by
  constructor
  · rfl
  · simp [NewFixer, sendCompletesNow]

/-- C8 counterexample: the stats task is not stopped at teardown: after
`Wait` on a fixer built with `logStats = true`, the ticker goroutine is
still running. -/
theorem statsTask_survives_wait_counterexample :
    (Wait (NewFixer 1 true)).statsRunning = true :=
  rfl

/-- C8 amended: when stats reporting is enabled at construction, `NewFixer`
starts a one-second periodic stats task; however `Wait` does not stop it:
teardown leaves the ticker goroutine running. -/
theorem statsTask_lifecycle (workerCount : Int) (logStats : Bool) :
    (NewFixer workerCount logStats).statsRunning = logStats
    ∧ (NewFixer workerCount logStats).statsIntervalSec = 1
    ∧ (Wait (NewFixer workerCount logStats)).statsRunning = logStats :=
  ⟨rfl, rfl, rfl⟩

/-- C9: `Wait` closes `toFix`, so any later `QueueChain` is a send on a
closed channel, which panics under Go semantics rather than returning an
error value or blocking. -/
theorem queueChain_after_wait_panics (f : Fixer) (cert : Cert) (chain : List Cert)
    (roots : RootPool) :
    QueueChainE (Wait f) cert chain roots = Except.error GoPanic.sendOnClosedChannel := by
  simp [QueueChainE, Wait]

lemma mem_jobTrace_pubError {handle : Handler} {j : Job} {e : FixError}
    (he : e ∈ (handle j).2) :
    Event.pubError e ∈ jobTrace handle j := by
  have hm : Event.pubError e ∈ (handle j).2.map Event.pubError :=
    List.mem_map.2 ⟨e, he, rfl⟩
  rw [jobTrace]
  exact List.mem_cons.2 (Or.inr (List.mem_cons.2 (Or.inr (List.mem_cons.2
    (Or.inr (List.mem_append.2 (Or.inl hm)))))))

lemma mem_jobTrace_pubChain {handle : Handler} {j : Job} {c : Chain}
    (hc : c ∈ (handle j).1) :
    Event.pubChain c ∈ jobTrace handle j := by
  have hm : Event.pubChain c ∈ (handle j).1.map Event.pubChain :=
    List.mem_map.2 ⟨c, hc, rfl⟩
  rw [jobTrace]
  exact List.mem_cons.2 (Or.inr (List.mem_cons.2 (Or.inr (List.mem_cons.2
    (Or.inr (List.mem_append.2 (Or.inr (List.mem_append.2 (Or.inl hm)))))))))

lemma mem_fixServerTrace_of_mem_jobTrace {handle : Handler} {jobs : List Job}
    {j : Job} (hj : j ∈ jobs) {ev : Event} (hev : ev ∈ jobTrace handle j) :
    ev ∈ fixServerTrace handle jobs := by
  induction jobs with
  | nil => simp at hj
  | cons j0 rest ih =>
    rw [fixServerTrace]
    rcases List.mem_cons.1 hj with h | h
    · subst h
      exact List.mem_append.2 (Or.inl hev)
    · exact List.mem_append.2 (Or.inr (ih h))

lemma waitTrace_eq_concat (handle : Handler) (jobs : List Job) :
    waitTrace handle jobs
      = (Event.closeQueue :: fixServerTrace handle jobs) ++ [Event.waitReturn] := by
  simp [waitTrace]

/-- C3: in the drain trace, `close(f.toFix)` is the first event,
`Wait` returning is the last, and every output (fixed chain or error) of
every submitted job is published strictly before `Wait` returns. -/
theorem wait_publishes_before_return (handle : Handler) (jobs : List Job) :
    (waitTrace handle jobs).head? = some Event.closeQueue
    ∧ (waitTrace handle jobs).getLast? = some Event.waitReturn
    ∧ (waitTrace handle jobs).dropLast
        = Event.closeQueue :: fixServerTrace handle jobs
    ∧ (∀ j ∈ jobs, ∀ e ∈ (handle j).2,
        Event.pubError e ∈ (waitTrace handle jobs).dropLast)
    ∧ (∀ j ∈ jobs, ∀ c ∈ (handle j).1,
        Event.pubChain c ∈ (waitTrace handle jobs).dropLast) := by
  have hsplit := waitTrace_eq_concat handle jobs
  have hdrop : (waitTrace handle jobs).dropLast
      = Event.closeQueue :: fixServerTrace handle jobs := by
    rw [hsplit, List.dropLast_concat]
  refine ⟨rfl, ?_, hdrop, fun j hj e he => ?_, fun j hj c hc => ?_⟩
  · rw [hsplit, List.getLast?_concat]
  · rw [hdrop]
    exact List.mem_cons.2 (Or.inr
      (mem_fixServerTrace_of_mem_jobTrace hj (mem_jobTrace_pubError he)))
  · rw [hdrop]
    exact List.mem_cons.2 (Or.inr
      (mem_fixServerTrace_of_mem_jobTrace hj (mem_jobTrace_pubChain hc)))

/-- C3 witness: for a one-job queue handled by `sampleHandle`, the job's
error is published strictly before `Wait` returns. -/
theorem wait_publishes_before_return_witness :
    sampleJob ∈ [sampleJob]
    ∧ Event.pubError vfErr ∈ (waitTrace sampleHandle [sampleJob]).dropLast :=
  ⟨by simp,
    (wait_publishes_before_return sampleHandle [sampleJob]).2.2.2.1 sampleJob
      (by simp) vfErr (by simp [sampleHandle])⟩

lemma precedes_of_append {l1 l2 : List Event} {a b : Event}
    (ha : a ∈ l1) (hb : b ∈ l2) : precedes (l1 ++ l2) a b := by
  obtain ⟨i, hi⟩ := List.getElem?_of_mem ha
  obtain ⟨k, hk⟩ := List.getElem?_of_mem hb
  have hil : i < l1.length := by
    rcases List.getElem?_eq_some_iff.1 hi with ⟨h, _⟩
    exact h
  refine ⟨i, l1.length + k, by omega, ?_, ?_⟩
  · rw [List.getElem?_append_left hil]
    exact hi
  · rw [List.getElem?_append_right (Nat.le_add_right _ _), Nat.add_sub_cancel_left]
    exact hk

lemma jobTrace_split_head (handle : Handler) (j : Job) :
    jobTrace handle j
      = [Event.dequeue j, Event.incActive, Event.counterUpdate (handle j).2]
        ++ ((handle j).2.map Event.pubError
          ++ ((handle j).1.map Event.pubChain ++ [Event.decActive])) := rfl

lemma jobTrace_split (handle : Handler) (j : Job) :
    jobTrace handle j
      = ([Event.dequeue j, Event.incActive, Event.counterUpdate (handle j).2]
          ++ ((handle j).2.map Event.pubError ++ (handle j).1.map Event.pubChain))
        ++ [Event.decActive] := by
  simp [jobTrace]

/-- C4 amended: within the processing of one job, the counter update
(which follows the pure `handleChain`) occurs strictly before every
publication of that job's errors and chains, and every publication occurs
strictly before the end-of-job `decActive` — the last event of the job's
trace, after which the worker dequeues its next job. -/
theorem counters_update_order (handle : Handler) (j : Job) :
    (∀ e ∈ (handle j).2,
        precedes (jobTrace handle j)
          (Event.counterUpdate (handle j).2) (Event.pubError e)
        ∧ precedes (jobTrace handle j) (Event.pubError e) Event.decActive)
    ∧ (∀ c ∈ (handle j).1,
        precedes (jobTrace handle j)
          (Event.counterUpdate (handle j).2) (Event.pubChain c)
        ∧ precedes (jobTrace handle j) (Event.pubChain c) Event.decActive)
    ∧ (jobTrace handle j).getLast? = some Event.decActive := by
  have hsplit := jobTrace_split handle j
  refine ⟨fun e he => ⟨?_, ?_⟩, fun c hc => ⟨?_, ?_⟩, ?_⟩
  · rw [jobTrace_split_head handle j]
    exact precedes_of_append (by simp)
      (List.mem_append.2 (Or.inl (List.mem_map.2 ⟨e, he, rfl⟩)))
  · rw [hsplit]
    exact precedes_of_append
      (List.mem_append.2 (Or.inr (List.mem_append.2 (Or.inl
        (List.mem_map.2 ⟨e, he, rfl⟩))))) (by simp)
  · rw [jobTrace_split_head handle j]
    exact precedes_of_append (by simp)
      (List.mem_append.2 (Or.inr (List.mem_append.2 (Or.inl
        (List.mem_map.2 ⟨c, hc, rfl⟩)))))
  · rw [hsplit]
    exact precedes_of_append
      (List.mem_append.2 (Or.inr (List.mem_append.2 (Or.inr
        (List.mem_map.2 ⟨c, hc, rfl⟩))))) (by simp)
  · rw [hsplit, List.getLast?_concat]

/-- C4 amended witness: for `sampleHandle` on `sampleJob`, the counter
update precedes the publication of the job's error. -/
theorem counters_update_order_witness :
    vfErr ∈ (sampleHandle sampleJob).2
    ∧ precedes (jobTrace sampleHandle sampleJob)
        (Event.counterUpdate (sampleHandle sampleJob).2) (Event.pubError vfErr) :=
  ⟨by simp [sampleHandle],
    ((counters_update_order sampleHandle sampleJob).1 vfErr
      (by simp [sampleHandle])).1⟩

/-- C4 counterexample: the claim as stated fails: in the worker loop the
counter update happens before publication, so for a job producing one
`VerifyFailed` error no publication event precedes the counter update. -/
theorem publish_before_counters_counterexample :
    ¬ precedes (jobTrace errOnlyHandle sampleJob)
        (Event.pubError vfErr) (Event.counterUpdate [vfErr]) := by
  rintro ⟨i, k, hik, hi, hk⟩
  have htr : jobTrace errOnlyHandle sampleJob
      = [Event.dequeue sampleJob, Event.incActive, Event.counterUpdate [vfErr],
         Event.pubError vfErr, Event.decActive] := rfl
  rw [htr] at hi hk
  have hi5 : i < 5 := by
    rcases List.getElem?_eq_some_iff.1 hi with ⟨h, _⟩
    simpa using h
  have hk5 : k < 5 := by
    rcases List.getElem?_eq_some_iff.1 hk with ⟨h, _⟩
    simpa using h
  interval_cases i <;> interval_cases k <;> simp_all

/-- C5: submitting the identical (certificate, chain, rootPool) triple — the
identical job — twice yields outputs exactly once: the first processing runs
the construct/fix core and marks the fingerprint, the second finds it
present, increments `skipped` by one and produces empty outputs. -/
theorem handleChain_idempotent (core : Handler) (st : FixState) (j : Job)
    (h : fingerprint j ∉ st.done) :
    (handleChainModel core st j).2 = core j
    ∧ (handleChainModel core (handleChainModel core st j).1 j).2 = ([], [])
    ∧ (handleChainModel core (handleChainModel core st j).1 j).1.skipped
        = (handleChainModel core st j).1.skipped + 1 := by
  refine ⟨?_, ?_, ?_⟩ <;> simp [handleChainModel, checkAndMark, h]

/-- C5 witness: on an empty dedup registry, processing `sampleJob` twice
publishes its outputs once and the resubmission yields empty outputs. -/
theorem handleChain_idempotent_witness :
    fingerprint sampleJob ∉ sampleState.done
    ∧ (handleChainModel sampleHandle
        (handleChainModel sampleHandle sampleState sampleJob).1 sampleJob).2 = ([], []) :=
  ⟨by decide,
    (handleChain_idempotent sampleHandle sampleState sampleJob (by decide)).2.1⟩

lemma runActive_append (a : Nat) (l1 l2 : List Event) :
    runActive a (l1 ++ l2) = runActive (runActive a l1) l2 := by
  induction l1 generalizing a with
  | nil => simp [runActive]
  | cons ev rest ih => simp [runActive, ih]

lemma runActive_pubErrors (a : Nat) (ferrs : List FixError) :
    runActive a (ferrs.map Event.pubError) = a := by
  induction ferrs with
  | nil => simp [runActive]
  | cons e rest ih => simpa [runActive, activeStep] using ih

lemma runActive_pubChains (a : Nat) (chains : List Chain) :
    runActive a (chains.map Event.pubChain) = a := by
  induction chains with
  | nil => simp [runActive]
  | cons c rest ih => simpa [runActive, activeStep] using ih

/-- C10: across one job the `active` counter is incremented by 1 (at trace
position 1, before the job is handled) and decremented afterwards by adding
2 ^ 32 - 1 modulo 2 ^ 32, as the final event of the job's trace, after the
publications; mid-job the counter reads `(a + 1) % 2 ^ 32` and the net
change across the completed job is zero. -/
theorem active_net_zero (handle : Handler) (j : Job) (a : Nat) (h : a < uint32Mod) :
    runActive a (jobTrace handle j) = a
    ∧ (jobTrace handle j)[1]? = some Event.incActive
    ∧ runActive a ((jobTrace handle j).take 2) = (a + 1) % uint32Mod
    ∧ (jobTrace handle j).getLast? = some Event.decActive := by
  refine ⟨?_, by simp [jobTrace], ?_, ?_⟩
  · have e1 : runActive a (jobTrace handle j)
        = runActive (addUint32 a 1)
            ((handle j).2.map Event.pubError
              ++ ((handle j).1.map Event.pubChain ++ [Event.decActive])) := by
      simp [jobTrace, runActive, activeStep]
    have e2 : runActive (addUint32 a 1) [Event.decActive]
        = addUint32 (addUint32 a 1) (uint32Mod - 1) := by
      simp [runActive, activeStep]
    rw [e1, runActive_append, runActive_pubErrors, runActive_append,
      runActive_pubChains, e2, addUint32, addUint32, uint32Mod]
    rw [uint32Mod] at h
    omega
  · simp [jobTrace, runActive, activeStep, addUint32]
  · rw [jobTrace_split handle j, List.getLast?_concat]

/-- C10 witness: from `active = 7` the job trace of `sampleHandle` on
`sampleJob` returns the counter to 7. -/
theorem active_net_zero_witness :
    7 < uint32Mod ∧ runActive 7 (jobTrace sampleHandle sampleJob) = 7 :=
  ⟨by decide, (active_net_zero sampleHandle sampleJob 7 (by decide)).1⟩

end Fixchain
